import Mathlib

/-!
Verification of the room/session core of the `estimator` planning-poker
repository.  The definitions below are a shallow embedding of the
TypeScript source:

* `app/lib/utils/room-code.ts` (room-code generator / validator),
* `app/lib/firebase/operations.ts` (room session controller),
* `app/lib/firebase/presence.ts` (presence tracker),
* `app/lib/firebase/snapshots.ts` and `app/lib/firebase/listeners.ts`
  (read paths),
* `app/types/room.ts` (the data model).

The Firebase realtime-database subtree `rooms/{roomId}` is modelled as an
explicit `RoomState`; each controller operation is a pure function on it.
Firebase keyed objects are modelled as association lists whose update
keeps a reassigned key in place, matching JavaScript object-field
assignment semantics.  `serverTimestamp()` is modelled as an explicit
`now : Nat` argument.
-/

namespace Estimator

/-! ### Association lists (model of Firebase keyed child nodes) -/

/-- Look up the value stored under key `k`. -/
def lookupKey {α : Type} (m : List (String × α)) (k : String) : Option α :=
  match m with
  | [] => none
  | (k', v) :: rest => if k' = k then some v else lookupKey rest k

/-- Write `v` under key `k`: replace in place if present, else append
(JavaScript object-assignment semantics). -/
def setKey {α : Type} (m : List (String × α)) (k : String) (v : α) :
    List (String × α) :=
  match m with
  | [] => [(k, v)]
  | (k', v') :: rest =>
    if k' = k then (k, v) :: rest else (k', v') :: setKey rest k v

/-- Delete the entry stored under key `k` (model of `remove`/`set null`). -/
def removeKey {α : Type} (m : List (String × α)) (k : String) :
    List (String × α) :=
  match m with
  | [] => []
  | (k', v') :: rest =>
    if k' = k then rest else (k', v') :: removeKey rest k

/-! ### Room code generator (`app/lib/utils/room-code.ts`) -/

/-- Alphabet for room codes, copied verbatim from the source:
`"123456789ABCDEFGHJKLMNPQRSTUVWXYZ"`. -/
def ROOM_CODE_ALPHABET : String := "123456789ABCDEFGHJKLMNPQRSTUVWXYZ"

/-- Room code length. -/
def ROOM_CODE_LENGTH : Nat := 8

/-- `createRoomCode()` calls a `customAlphabet(ROOM_CODE_ALPHABET,
ROOM_CODE_LENGTH)` nanoid generator: it returns a string of exactly
`ROOM_CODE_LENGTH` characters, each one an independently chosen symbol of
`ROOM_CODE_ALPHABET`.  The random choice is modelled by the argument
`pick`, giving the alphabet index chosen for each position. -/
def createRoomCode (pick : Fin ROOM_CODE_LENGTH → Fin ROOM_CODE_ALPHABET.length) :
    String :=
  ⟨(List.finRange ROOM_CODE_LENGTH).map
    (fun i => ROOM_CODE_ALPHABET.data.get ((pick i).cast rfl))⟩

/-- `isValidRoomCode`: length must be `ROOM_CODE_LENGTH` and every
character must occur in `ROOM_CODE_ALPHABET` (the `!code` falsy guard of
the source is subsumed by the length check: `""` has length 0). -/
def isValidRoomCode (code : String) : Bool :=
  if code.length ≠ ROOM_CODE_LENGTH then false
  else code.data.all (fun c => ROOM_CODE_ALPHABET.data.contains c)

/-- Characters matched by the JavaScript regex `\s` (the ASCII whitespace
characters plus the common Unicode ones relevant here). -/
def isJsWhitespace (c : Char) : Bool :=
  [' ', '\t', '\n', '\r', '\x0b', '\x0c', ' ', '﻿'].contains c

/-- `String.prototype.toUpperCase` restricted to one character; for the
ASCII range handled by the room-code component this is exactly ASCII
upper-casing. -/
def jsToUpperChar (c : Char) : Char :=
  if 'a' ≤ c ∧ c ≤ 'z' then Char.ofNat (c.toNat - 32) else c

/-- ASCII lower-casing of one character, used to describe case variants of
a code (`String.prototype.toLowerCase` on the relevant range). -/
def jsToLowerChar (c : Char) : Char :=
  if 'A' ≤ c ∧ c ≤ 'Z' then Char.ofNat (c.toNat + 32) else c

/-- `parseRoomCode(input)`: `input.replace(/\s/g, "").toUpperCase()` —
drop every whitespace character, then upper-case. -/
def parseRoomCode (input : String) : String :=
  ⟨(input.data.filter (fun c => !isJsWhitespace c)).map jsToUpperChar⟩

/-- `formatRoomCode(code)`: upper-case for display. -/
def formatRoomCode (code : String) : String :=
  ⟨code.data.map jsToUpperChar⟩

/-- `v` is obtained from `c` by replacing `c` with itself or its
lower-cased form. -/
def caseVariantChar (c v : Char) : Bool :=
  v = c || v = jsToLowerChar c

/-- `isVariantOf code v`: the character list `v` is obtained from `code`
by changing letter casing of its characters and/or inserting whitespace
characters anywhere. -/
def isVariantOf : List Char → List Char → Bool
  | [], [] => true
  | cs, v :: rest =>
    (isJsWhitespace v && isVariantOf cs rest) ||
    (match cs with
     | c :: cs' => caseVariantChar c v && isVariantOf cs' rest
     | [] => false)
  | _ :: _, [] => false

/-! ### Data model (`app/types/room.ts`) -/

/-- `RoomStatus = 'lobby' | 'active' | 'results' | 'ended'`. -/
inductive RoomStatus
  | lobby
  | active
  | results
  | ended
deriving DecidableEq, Repr

/-- `FibonacciValue = 1|2|3|5|8|13|21|"?"`; the numeric payload is kept
abstract here, `FIBONACCI_VALUES` lists the legal numbers. -/
inductive FibonacciValue
  | num (n : Nat)
  | question
deriving DecidableEq, Repr

/-- `FIBONACCI_VALUES = [1, 2, 3, 5, 8, 13, 21]`. -/
def FIBONACCI_VALUES : List Nat := [1, 2, 3, 5, 8, 13, 21]

/-- `connection_status: 'online' | 'offline'`. -/
inductive ConnectionStatus
  | online
  | offline
deriving DecidableEq, Repr

structure Workstream where
  id : String
  name : String
  order : Nat
deriving DecidableEq, Repr

structure Task where
  id : String
  title : String
  link : Option String
  order : Nat
deriving DecidableEq, Repr

structure Estimate where
  value : FibonacciValue
  submitted_at : Nat
deriving DecidableEq, Repr

structure ParticipantEstimates where
  workstreams : List (String × Estimate)
  is_done : Bool
  done_at : Option Nat
deriving DecidableEq, Repr

structure Round where
  task_id : String
  started_at : Nat
  estimates : List (String × ParticipantEstimates)
deriving DecidableEq, Repr

/-- Per-workstream estimate inside a completed round, denormalized with
the workstream name. -/
structure CompletedWorkstreamEstimate where
  value : FibonacciValue
  submitted_at : Nat
  workstream_name : String
deriving DecidableEq, Repr

/-- Per-participant entry inside a completed round, denormalized with the
participant name. -/
structure CompletedParticipantEstimates where
  participant_name : String
  workstreams : List (String × CompletedWorkstreamEstimate)
  is_done : Bool
  done_at : Option Nat
deriving DecidableEq, Repr

structure CompletedRound where
  task_id : String
  started_at : Nat
  completed_at : Nat
  estimates : List (String × CompletedParticipantEstimates)
deriving DecidableEq, Repr

structure RoomMetadata where
  created_at : Nat
  created_by : String
  organizer_id : String
  previous_organizer_id : Option String
  status : RoomStatus
  current_task_index : Nat
  last_activity : Nat
deriving DecidableEq, Repr

structure Participant where
  peer_id : String
  name : String
  is_organizer : Bool
  color : String
  joined_at : Nat
  last_heartbeat : Nat
  connection_status : ConnectionStatus
deriving DecidableEq, Repr

/-- The Firebase subtree `rooms/{roomId}`: metadata, workstreams, tasks,
participants, current round and completed rounds. -/
structure RoomState where
  metadata : Option RoomMetadata
  workstreams : List (String × Workstream)
  tasks : List (String × Task)
  participants : List (String × Participant)
  current_round : Option Round
  completed_rounds : List CompletedRound
deriving DecidableEq, Repr

/-- Input shape of `createRoom`'s workstreams: `Omit<Workstream, 'order'>`. -/
structure WorkstreamInput where
  id : String
  name : String
deriving DecidableEq, Repr

/-- Input shape of `createRoom`'s tasks: `Omit<Task, 'order'>`. -/
structure TaskInput where
  id : String
  title : String
  link : Option String
deriving DecidableEq, Repr

/-! ### Room session controller (`app/lib/firebase/operations.ts`) -/

/-- Wrap an integer to the signed 32-bit range, as JavaScript's bitwise
operators do. -/
def toInt32 (n : Int) : Int := (n + 2 ^ 31) % 2 ^ 32 - 2 ^ 31

/-- One step of `generateColorFromPeerId`'s hash loop:
`hash = charCode + ((hash << 5) - hash)`.  `hash << 5` coerces to int32
and wraps, which is `toInt32 (hash * 32)`; the surrounding addition and
subtraction are exact float arithmetic at these magnitudes. -/
def colorHashStep (hash : Int) (c : Char) : Int :=
  (c.toNat : Int) + (toInt32 (hash * 32) - hash)

/-- The hash accumulated over the peer id's characters, starting from 0. -/
def colorHash (peerId : String) : Int :=
  peerId.data.foldl colorHashStep 0

/-- The ten Tailwind color classes of `generateColorFromPeerId`. -/
def participantColors : List String :=
  ["bg-blue-500", "bg-green-500", "bg-purple-500", "bg-pink-500",
   "bg-yellow-500", "bg-red-500", "bg-indigo-500", "bg-teal-500",
   "bg-orange-500", "bg-cyan-500"]

/-- `generateColorFromPeerId`: `colors[Math.abs(hash) % colors.length]`
(the index is always in range, so the `getD` default is never used). -/
def generateColorFromPeerId (peerId : String) : String :=
  participantColors.getD ((colorHash peerId).natAbs % participantColors.length) ""

/-- `checkRoomExists`: the `rooms/{roomId}/metadata` node exists. -/
def checkRoomExists (s : RoomState) : Bool := s.metadata.isSome

/-- Write `serverTimestamp()` to `metadata/last_activity`.  Every call
site operates on a room whose metadata node exists; the missing-metadata
path (which in the store would create a partial metadata node) is
modelled as a no-op and never reached in the developments below. -/
def updateLastActivity (s : RoomState) (now : Nat) : RoomState :=
  { s with metadata := s.metadata.map (fun m => { m with last_activity := now }) }

/-- The workstream record written by `createRoom` for the input at a
given array position: `{...ws, order: index}`. -/
def workstreamWithOrder (iw : Nat × WorkstreamInput) : Workstream :=
  { id := iw.2.id, name := iw.2.name, order := iw.1 }

/-- The task record written by `createRoom` for the input at a given
array position; the `link` field is kept only when present and not
whitespace-only (`task.link && task.link.trim() !== ''`). -/
def taskWithOrder (it : Nat × TaskInput) : Task :=
  { id := it.2.id, title := it.2.title, order := it.1,
    link := match it.2.link with
      | some l => if l.trim ≠ "" then some l else none
      | none => none }

/-- `createRoom(roomId, peerId, workstreams, tasks)`: assigns `order` by
array position, keys workstreams and tasks by their `id`, keeps a task's
`link` only when it is present and not whitespace-only, and replaces the
whole room subtree with metadata (status `lobby`, `current_task_index`
0), the workstreams and the tasks. -/
def createRoom (peerId : String) (workstreams : List WorkstreamInput)
    (tasks : List TaskInput) (now : Nat) : RoomState :=
  let workstreamsData := workstreams.enum.foldl
    (fun acc iws => setKey acc iws.2.id (workstreamWithOrder iws)) []
  let tasksData := tasks.enum.foldl
    (fun acc it => setKey acc it.2.id (taskWithOrder it)) []
  { metadata := some
      { created_at := now, created_by := peerId, organizer_id := peerId,
        previous_organizer_id := none, status := .lobby,
        current_task_index := 0, last_activity := now },
    workstreams := workstreamsData,
    tasks := tasksData,
    participants := [],
    current_round := none,
    completed_rounds := [] }

/-- The participant record written by `joinRoom`. -/
def joinParticipant (peerId name : String) (isOrganizer : Bool) (now : Nat) :
    Participant :=
  { peer_id := peerId, name := name, is_organizer := isOrganizer,
    color := generateColorFromPeerId peerId, joined_at := now,
    last_heartbeat := now, connection_status := .online }

/-- `joinRoom(roomId, peerId, name, isOrganizer)`: false when the room is
missing or already `ended`; otherwise writes the participant record and
bumps `last_activity`. -/
def joinRoom (s : RoomState) (peerId name : String) (isOrganizer : Bool)
    (now : Nat) : Bool × RoomState :=
  match s.metadata with
  | none => (false, s)
  | some m =>
    if m.status = .ended then (false, s)
    else
      let s1 := { s with participants := setKey s.participants peerId (joinParticipant peerId name isOrganizer now) }
      (true, updateLastActivity s1 now)

/-- `leaveRoom`: remove the participant node. -/
def leaveRoom (s : RoomState) (peerId : String) : RoomState :=
  { s with participants := removeKey s.participants peerId }

/-- `updateRoomStatus`: direct status setter (no transition-table
enforcement), then bump `last_activity`. -/
def updateRoomStatus (s : RoomState) (status : RoomStatus) (now : Nat) : RoomState :=
  updateLastActivity
    { s with metadata := s.metadata.map (fun m => { m with status := status }) } now

/-- `setOrganizer`: update `organizer_id`, optionally snapshotting the
previous value into `previous_organizer_id`, then bump `last_activity`. -/
def setOrganizer (s : RoomState) (newOrganizerId : String)
    (storePrevious : Bool) (now : Nat) : RoomState :=
  let s1 :=
    if storePrevious then
      { s with metadata := s.metadata.map (fun m =>
          { m with organizer_id := newOrganizerId,
                   previous_organizer_id := some m.organizer_id }) }
    else
      { s with metadata := s.metadata.map (fun m =>
          { m with organizer_id := newOrganizerId }) }
  updateLastActivity s1 now

/-- `clearPreviousOrganizer`: null the `previous_organizer_id` field. -/
def clearPreviousOrganizer (s : RoomState) : RoomState :=
  { s with metadata := s.metadata.map (fun m =>
      { m with previous_organizer_id := none }) }

/-- `startRound(roomId, taskId)`: overwrite `current_round` with a fresh
round, then set status `active`. -/
def startRound (s : RoomState) (taskId : String) (now : Nat) : RoomState :=
  updateRoomStatus
    { s with current_round := some ({ task_id := taskId, started_at := now, estimates := [] } : Round) }
    .active now

/-- Fallback round for a deep write below a missing `current_round` node
(the store creates the missing ancestors; absent fields are modelled as
`""`/`0`/empty).  Never reached from the application flows studied here. -/
def emptyRound : Round := { task_id := "", started_at := 0, estimates := [] }

/-- Fallback participant-estimates node for a deep write below a missing
entry. -/
def emptyParticipantEstimates : ParticipantEstimates :=
  { workstreams := [], is_done := false, done_at := none }

/-- `submitEstimate`: set
`current_round/estimates/{pid}/workstreams/{wsid}` to
`{value, submitted_at: now}`, then bump `last_activity`. -/
def submitEstimate (s : RoomState) (participantId workstreamId : String)
    (value : FibonacciValue) (now : Nat) : RoomState :=
  let est : Estimate := { value := value, submitted_at := now }
  let r := (s.current_round).getD emptyRound
  let pe := (lookupKey r.estimates participantId).getD emptyParticipantEstimates
  let pe' := { pe with workstreams := setKey pe.workstreams workstreamId est }
  let r' := { r with estimates := setKey r.estimates participantId pe' }
  updateLastActivity { s with current_round := some r' } now

/-- `markParticipantDone`: merge `{is_done, done_at}` into
`current_round/estimates/{pid}` (`done_at` is nulled when un-marking),
then bump `last_activity`. -/
def markParticipantDone (s : RoomState) (participantId : String)
    (isDone : Bool) (now : Nat) : RoomState :=
  let r := (s.current_round).getD emptyRound
  let pe := (lookupKey r.estimates participantId).getD emptyParticipantEstimates
  let pe' := { pe with is_done := isDone,
                       done_at := if isDone then some now else none }
  let r' := { r with estimates := setKey r.estimates participantId pe' }
  updateLastActivity { s with current_round := some r' } now

/-- `estimate.done_at || null`: JavaScript `||` also treats the timestamp
`0` as falsy. -/
def jsOrNullNat (o : Option Nat) : Option Nat :=
  match o with
  | some t => if t = 0 then none else some t
  | none => none

/-- `x?.name || 'Unknown'`: a missing record or an empty name falls back
to the literal `"Unknown"`. -/
def nameOrUnknown (o : Option String) : String :=
  match o with
  | some n => if n = "" then "Unknown" else n
  | none => "Unknown"

/-- The denormalized copy of one per-workstream estimate written by
`endRound`: the original value and timestamp plus the workstream's name
(`workstream?.name || 'Unknown'`). -/
def completedWorkstreamEstimateOf (s : RoomState) (we : String × Estimate) :
    String × CompletedWorkstreamEstimate :=
  (we.1,
   { value := we.2.value, submitted_at := we.2.submitted_at,
     workstream_name :=
       nameOrUnknown ((lookupKey s.workstreams we.1).map (·.name)) })

/-- The denormalized copy of one participant's estimates written by
`endRound`: the participant's name (`participant?.name || 'Unknown'`),
the denormalized workstream estimates, `is_done || false` and
`done_at || null`. -/
def completedEstimateOf (s : RoomState) (pe : String × ParticipantEstimates) :
    String × CompletedParticipantEstimates :=
  (pe.1,
   { participant_name :=
       nameOrUnknown ((lookupKey s.participants pe.1).map (·.name)),
     workstreams := pe.2.workstreams.map (completedWorkstreamEstimateOf s),
     is_done := pe.2.is_done,
     done_at := jsOrNullNat pe.2.done_at })

/-- The Completed Round record appended by `endRound`. -/
def completedRoundOf (s : RoomState) (r : Round) (now : Nat) : CompletedRound :=
  { task_id := r.task_id, started_at := r.started_at, completed_at := now,
    estimates := r.estimates.map (completedEstimateOf s) }

/-- `endRound(roomId)`: throws (`some errorMessage`, state untouched)
when no current round exists at the initial read; otherwise denormalizes
every estimate with participant/workstream names, appends the completed
round, deletes the current round and sets status `results`. -/
def endRound (s : RoomState) (now : Nat) : Option String × RoomState :=
  match s.current_round with
  | none => (some "No active round to end", s)
  | some currentRound =>
    let cr := completedRoundOf s currentRound now
    let s1 := { s with completed_rounds := s.completed_rounds ++ [cr] }
    let s2 := { s1 with current_round := none }
    (none, updateRoomStatus s2 .results now)

/-- `advanceToNextTask(roomId)`: reads the index and the task list; when
`currentIndex + 1 >= taskCount`, sets status `ended` and returns false;
otherwise writes the incremented index, looks the next task up by its
`order` field and, when found, starts a round for it and returns true. -/
def advanceToNextTask (s : RoomState) (now : Nat) : Bool × RoomState :=
  let taskCount := s.tasks.length
  let currentIndex :=
    match s.metadata with
    | some m => m.current_task_index
    | none => 0
  let nextIndex := currentIndex + 1
  if taskCount ≤ nextIndex then
    (false, updateRoomStatus s .ended now)
  else
    let s1 := { s with metadata := s.metadata.map (fun m =>
        { m with current_task_index := nextIndex }) }
    match (s.tasks.map Prod.snd).find? (fun t => t.order == nextIndex) with
    | some nextTask => (true, startRound s1 nextTask.id now)
    | none => (false, s1)

/-- `Partial<Participant>` as passed to `updateParticipant`. -/
structure ParticipantUpdate where
  peer_id : Option String
  name : Option String
  is_organizer : Option Bool
  color : Option String
  joined_at : Option Nat
  last_heartbeat : Option Nat
  connection_status : Option ConnectionStatus
deriving DecidableEq, Repr

/-- Merge the provided fields into an existing participant record. -/
def applyParticipantUpdate (p : Participant) (u : ParticipantUpdate) : Participant :=
  { peer_id := u.peer_id.getD p.peer_id,
    name := u.name.getD p.name,
    is_organizer := u.is_organizer.getD p.is_organizer,
    color := u.color.getD p.color,
    joined_at := u.joined_at.getD p.joined_at,
    last_heartbeat := u.last_heartbeat.getD p.last_heartbeat,
    connection_status := u.connection_status.getD p.connection_status }

/-- Zero-values standing in for the absent fields created by a partial
`update` on a missing participant node. -/
def emptyParticipant : Participant :=
  { peer_id := "", name := "", is_organizer := false, color := "",
    joined_at := 0, last_heartbeat := 0, connection_status := .offline }

/-- `updateParticipant`: merge a partial record into the participant
node. -/
def updateParticipant (s : RoomState) (participantId : String)
    (u : ParticipantUpdate) : RoomState :=
  let p := (lookupKey s.participants participantId).getD emptyParticipant
  { s with participants :=
      setKey s.participants participantId (applyParticipantUpdate p u) }

/-- `removeParticipant`: remove the participant node. -/
def removeParticipant (s : RoomState) (participantId : String) : RoomState :=
  { s with participants := removeKey s.participants participantId }

/-- `getActiveParticipants`: all participant records. -/
def getActiveParticipants (s : RoomState) : List Participant :=
  s.participants.map Prod.snd

/-- `getRoomMetadata`. -/
def getRoomMetadata (s : RoomState) : Option RoomMetadata := s.metadata

/-! ### Presence tracker (`app/lib/firebase/presence.ts`) -/

/-- Heartbeat period (2 s). -/
def HEARTBEAT_INTERVAL : Nat := 2000

/-- Staleness threshold (6 s = three missed heartbeats). -/
def STALE_THRESHOLD : Nat := 6000

/-- `updatePresence`: skip when the participant no longer exists,
otherwise refresh `last_heartbeat` and the room's `last_activity`. -/
def updatePresence (s : RoomState) (userId : String) (now : Nat) : RoomState :=
  match lookupKey s.participants userId with
  | none => s
  | some p =>
    let s1 := { s with participants := setKey s.participants userId ({ p with last_heartbeat := now }) }
    updateLastActivity s1 now

/-- `detectStaleParticipants(roomId, timeoutMs)`: the ids of the
participants whose `last_heartbeat` is strictly more than `timeoutMs`
milliseconds before `now` (`now - lastHeartbeat > timeoutMs`).  The
function only reads; it returns no new state. -/
def detectStaleParticipants (s : RoomState) (now timeoutMs : Int) : List String :=
  (s.participants.filter
    (fun pp => timeoutMs < now - (pp.2.last_heartbeat : Int))).map Prod.fst

/-- `cleanupStaleParticipants`: delete each listed participant. -/
def cleanupStaleParticipants (s : RoomState) (staleIds : List String) : RoomState :=
  { s with participants := staleIds.foldl removeKey s.participants }

/-! ### Read paths (`snapshots.ts` / `listeners.ts`) -/

/-- Stable insertion of `x` into a list ascending in `key` (model of the
stable JavaScript `Array.prototype.sort` with comparator
`(a, b) => a.order - b.order`). -/
def insertByOrder {α : Type} (key : α → Nat) (x : α) : List α → List α
  | [] => [x]
  | y :: ys => if key x ≤ key y then x :: y :: ys else y :: insertByOrder key x ys

/-- Stable sort by ascending `key`. -/
def sortByOrder {α : Type} (key : α → Nat) (l : List α) : List α :=
  l.foldr (insertByOrder key) []

/-- `getWorkstreamsSnapshot`: `Object.values` of the workstreams node,
sorted ascending by `order`. -/
def getWorkstreamsSnapshot (s : RoomState) : List Workstream :=
  sortByOrder Workstream.order (s.workstreams.map Prod.snd)

/-- `getTasksSnapshot`: `Object.values` of the tasks node, sorted
ascending by `order`. -/
def getTasksSnapshot (s : RoomState) : List Task :=
  sortByOrder Task.order (s.tasks.map Prod.snd)

/-- The workstream list delivered to an `onWorkstreams` listener callback
for the current state: same computation as the snapshot path. -/
def onWorkstreams (s : RoomState) : List Workstream :=
  sortByOrder Workstream.order (s.workstreams.map Prod.snd)

/-- The task list delivered to an `onTasks` listener callback for the
current state: same computation as the snapshot path. -/
def onTasks (s : RoomState) : List Task :=
  sortByOrder Task.order (s.tasks.map Prod.snd)

/-! ### Status chain and step relations -/

/-- The status of a room, when its metadata node exists. -/
def statusOf (s : RoomState) : Option RoomStatus := s.metadata.map (·.status)

/-- One move along the chain lobby→active→results→(active|ended); an
unchanged status is not a transition and is always allowed. -/
def chainOK (a b : RoomStatus) : Bool :=
  a == b ||
  (match a, b with
   | .lobby, .active => true
   | .active, .results => true
   | .results, .active => true
   | .results, .ended => true
   | _, _ => false)

/-- The controller operations as the application invokes them: each
lifecycle operation is only triggered from the room statuses in which the
routes call it (`startRound` from the lobby page or via
`advanceToNextTask`; `endRound` from the active session page;
`advanceToNextTask` and the end-session `updateRoomStatus(_, ended)` from
the results page, the latter also right after `advanceToNextTask`
returned false and has already set status `ended`). -/
inductive AppStep : RoomState → RoomState → Prop
  | start_round (s : RoomState) (taskId : String) (now : Nat)
      (h : statusOf s = some .lobby ∨ statusOf s = some .results) :
      AppStep s (startRound s taskId now)
  | end_round (s : RoomState) (now : Nat) (h : statusOf s = some .active) :
      AppStep s (endRound s now).2
  | advance_task (s : RoomState) (now : Nat) (h : statusOf s = some .results) :
      AppStep s (advanceToNextTask s now).2
  | end_session (s : RoomState) (now : Nat)
      (h : statusOf s = some .results ∨ statusOf s = some .ended) :
      AppStep s (updateRoomStatus s .ended now)
  | join (s : RoomState) (peerId name : String) (isOrganizer : Bool) (now : Nat) :
      AppStep s (joinRoom s peerId name isOrganizer now).2
  | leave (s : RoomState) (peerId : String) :
      AppStep s (leaveRoom s peerId)
  | submit (s : RoomState) (pid wsid : String) (v : FibonacciValue) (now : Nat) :
      AppStep s (submitEstimate s pid wsid v now)
  | mark_done (s : RoomState) (pid : String) (d : Bool) (now : Nat) :
      AppStep s (markParticipantDone s pid d now)
  | set_organizer (s : RoomState) (newId : String) (storePrevious : Bool) (now : Nat) :
      AppStep s (setOrganizer s newId storePrevious now)

/-- One controller operation with arbitrary arguments.  `createRoom` only
fires on a missing room, matching its documented caller-checked
precondition (the caller checks `checkRoomExists` first); every other
operation is unconstrained. -/
inductive ControllerStep : RoomState → RoomState → Prop
  | create_room (s : RoomState) (peerId : String) (ws : List WorkstreamInput)
      (ts : List TaskInput) (now : Nat) (h : s.metadata = none) :
      ControllerStep s (createRoom peerId ws ts now)
  | join (s : RoomState) (peerId name : String) (isOrganizer : Bool) (now : Nat) :
      ControllerStep s (joinRoom s peerId name isOrganizer now).2
  | leave (s : RoomState) (peerId : String) :
      ControllerStep s (leaveRoom s peerId)
  | update_status (s : RoomState) (st : RoomStatus) (now : Nat) :
      ControllerStep s (updateRoomStatus s st now)
  | set_organizer (s : RoomState) (newId : String) (storePrevious : Bool) (now : Nat) :
      ControllerStep s (setOrganizer s newId storePrevious now)
  | clear_previous_organizer (s : RoomState) :
      ControllerStep s (clearPreviousOrganizer s)
  | start_round (s : RoomState) (taskId : String) (now : Nat) :
      ControllerStep s (startRound s taskId now)
  | submit (s : RoomState) (pid wsid : String) (v : FibonacciValue) (now : Nat) :
      ControllerStep s (submitEstimate s pid wsid v now)
  | mark_done (s : RoomState) (pid : String) (d : Bool) (now : Nat) :
      ControllerStep s (markParticipantDone s pid d now)
  | end_round (s : RoomState) (now : Nat) :
      ControllerStep s (endRound s now).2
  | advance_task (s : RoomState) (now : Nat) :
      ControllerStep s (advanceToNextTask s now).2
  | update_participant (s : RoomState) (pid : String) (u : ParticipantUpdate) :
      ControllerStep s (updateParticipant s pid u)
  | remove_participant (s : RoomState) (pid : String) :
      ControllerStep s (removeParticipant s pid)

/-- States reachable from `init` by controller operations. -/
def ReachableFrom (init : RoomState) : RoomState → Prop :=
  Relation.ReflTransGen ControllerStep init

/-! ### Concrete demonstration states -/

/-- A room with two participants whose heartbeats are 7000 ms and 3000 ms
old at `now = 10000`. -/
def staleDemoState : RoomState :=
  { metadata := none, workstreams := [], tasks := [],
    participants :=
      [("alice",
        { peer_id := "alice", name := "Alice", is_organizer := true,
          color := "", joined_at := 0, last_heartbeat := 3000,
          connection_status := .online }),
       ("bob",
        { peer_id := "bob", name := "Bob", is_organizer := false,
          color := "", joined_at := 0, last_heartbeat := 7000,
          connection_status := .online })],
    current_round := none, completed_rounds := [] }

/-- An active room with a live round whose only estimate belongs to a
participant that is no longer present, over one existing workstream and
one missing workstream. -/
def endRoundDemoState : RoomState :=
  { metadata := some
      { created_at := 0, created_by := "p1", organizer_id := "p1",
        previous_organizer_id := none, status := .active,
        current_task_index := 0, last_activity := 0 },
    workstreams := [("w1", { id := "w1", name := "Backend", order := 0 })],
    tasks := [("t1", { id := "t1", title := "A", link := none, order := 0 })],
    participants := [],
    current_round := some
      { task_id := "t1", started_at := 1,
        estimates :=
          [("ghost",
            { workstreams :=
                [("w1", { value := .num 5, submitted_at := 2 }),
                 ("w2", { value := .num 8, submitted_at := 3 })],
              is_done := true, done_at := some 4 })] },
    completed_rounds := [] }

/-- Every character of the room-code alphabet is unaffected by
upper-casing, is not whitespace, and round-trips through lower-casing;
its lower-cased form is not whitespace either. -/
theorem alphabet_char_facts :
    (ROOM_CODE_ALPHABET.data.all (fun c =>
      jsToUpperChar c = c ∧ !isJsWhitespace c ∧
      jsToUpperChar (jsToLowerChar c) = c ∧ !isJsWhitespace (jsToLowerChar c))) = true := by
  decide

theorem parse_of_variant (v code : List Char)
    (hcode : code.all (fun c => ROOM_CODE_ALPHABET.data.contains c) = true)
    (hv : isVariantOf code v = true) :
    (v.filter (fun c => !isJsWhitespace c)).map jsToUpperChar = code := by
  induction v generalizing code with
  | nil =>
    cases code with
    | nil => simp
    | cons c cs => simp [isVariantOf] at hv
  | cons x xs ih =>
    have hfacts := alphabet_char_facts
    rw [List.all_eq_true] at hfacts
    cases code with
    | nil =>
      simp only [isVariantOf, Bool.or_eq_true, Bool.and_eq_true] at hv
      rcases hv with ⟨hws, hrest⟩ | h
      · simp only [List.filter_cons, hws, Bool.not_true]
        exact ih [] (by simp) hrest
      · exact absurd h (by simp)
    | cons c cs =>
      simp only [List.all_cons, Bool.and_eq_true] at hcode
      obtain ⟨hc, hcs⟩ := hcode
      have hc' := hfacts c (by simpa using hc)
      simp only [decide_eq_true_eq, Bool.not_eq_true', Bool.and_eq_true] at hc'
      obtain ⟨hup, hnws, huplo, hlonws⟩ := hc'
      simp only [isVariantOf, Bool.or_eq_true, Bool.and_eq_true] at hv
      rcases hv with ⟨hws, hrest⟩ | ⟨hcase, hrest⟩
      · simp only [List.filter_cons, hws, Bool.not_true]
        exact ih (c :: cs)
          (by simp only [List.all_cons, Bool.and_eq_true]; exact ⟨hc, hcs⟩) hrest
      · have hxval : x = c ∨ x = jsToLowerChar c := by
          simpa [caseVariantChar] using hcase
        have hxnws : isJsWhitespace x = false := by
          rcases hxval with rfl | rfl
          · exact hnws
          · exact hlonws
        have hxup : jsToUpperChar x = c := by
          rcases hxval with rfl | rfl
          · exact hup
          · exact huplo
        have hfil : List.filter (fun c => !isJsWhitespace c) (x :: xs)
            = x :: List.filter (fun c => !isJsWhitespace c) xs := by
          simp [List.filter_cons, hxnws]
        rw [hfil, List.map_cons, hxup]
        exact congrArg (c :: ·) (ih cs hcs hrest)

/-- Claim C6: for every valid 8-character code drawn from the room-code
alphabet, and for every variant of that code obtained by changing letter
casing and/or adding whitespace, `isValidRoomCode (parseRoomCode variant)`
returns true. -/
theorem roomCode_parse_variant_valid (code v : String)
    (hvalid : isValidRoomCode code = true)
    (hvar : isVariantOf code.data v.data = true) :
    isValidRoomCode (parseRoomCode v) = true := by
  have hall : code.data.all (fun c => ROOM_CODE_ALPHABET.data.contains c) = true := by
    by_cases h : code.length ≠ ROOM_CODE_LENGTH
    · simp [isValidRoomCode, h] at hvalid
    · simpa [isValidRoomCode, h] using hvalid
  have hdata := parse_of_variant v.data code.data hall hvar
  have hparse : parseRoomCode v = code := by
    unfold parseRoomCode
    cases code
    exact congrArg String.mk hdata
  rw [hparse]
  exact hvalid

/-- Witness for C6 at the code `"ABCDEFGH"` and the variant
`" abcd EFGH\t"` (lower-cased and whitespace-padded). -/
theorem roomCode_parse_variant_valid_witness :
    isValidRoomCode "ABCDEFGH" = true ∧
    isVariantOf "ABCDEFGH".data " abcd EFGH\t".data = true ∧
    isValidRoomCode (parseRoomCode " abcd EFGH\t") = true :=
  ⟨by decide, by decide,
   roomCode_parse_variant_valid "ABCDEFGH" " abcd EFGH\t" (by decide) (by decide)⟩

/-- Counterexample to claim C5 as stated: the room-code alphabet of the
source has 33 symbols, not 34, and it contains the letter `L` (only the
lowercase `l` was excluded); the generator can therefore return a code
made entirely of `L`s. -/
theorem createRoomCode_alphabet_counterexample :
    ROOM_CODE_ALPHABET.length = 33 ∧
    ROOM_CODE_ALPHABET.data.contains 'L' = true ∧
    createRoomCode (fun _ => ⟨19, by decide⟩) = "LLLLLLLL" :=
  ⟨by decide, by decide, by decide⟩

/-- Claim C5 (amended): every string returned by `createRoomCode()` has
length exactly 8 and every one of its characters is drawn from the
33-symbol alphabet, which excludes the visually ambiguous characters `0`,
`O` and `I` (and all lowercase letters, in particular `l`), but does
contain the uppercase `L`. -/
theorem createRoomCode_spec
    (pick : Fin ROOM_CODE_LENGTH → Fin ROOM_CODE_ALPHABET.length) :
    (createRoomCode pick).length = ROOM_CODE_LENGTH ∧
    (∀ c ∈ (createRoomCode pick).data, c ∈ ROOM_CODE_ALPHABET.data) ∧
    ROOM_CODE_ALPHABET.length = 33 ∧
    '0' ∉ ROOM_CODE_ALPHABET.data ∧ 'O' ∉ ROOM_CODE_ALPHABET.data ∧
    'I' ∉ ROOM_CODE_ALPHABET.data ∧ 'l' ∉ ROOM_CODE_ALPHABET.data ∧
    'L' ∈ ROOM_CODE_ALPHABET.data := by
  refine ⟨?_, ?_, by decide, by decide, by decide, by decide, by decide, by decide⟩
  · show ((List.finRange ROOM_CODE_LENGTH).map _).length = ROOM_CODE_LENGTH
    simp
  · intro c hc
    rcases List.mem_map.mp hc with ⟨i, _, rfl⟩
    exact List.get_mem _ _ _

/-- Witness for C5 (amended), evaluating the generator at the constant
index-0 pick. -/
theorem createRoomCode_spec_witness :
    '1' ∈ ROOM_CODE_ALPHABET.data ∧
    (createRoomCode (fun _ => ⟨0, by decide⟩)).length = ROOM_CODE_LENGTH :=
  ⟨(createRoomCode_spec (fun _ => ⟨0, by decide⟩)).2.1 '1' (by decide),
   (createRoomCode_spec (fun _ => ⟨0, by decide⟩)).1⟩

/-! ### Association-list and metadata helper lemmas -/

theorem lookupKey_setKey_self {α : Type} (m : List (String × α)) (k : String) (v : α) :
    lookupKey (setKey m k v) k = some v := by
  induction m with
  | nil => simp [setKey, lookupKey]
  | cons hd tl ih =>
    obtain ⟨k0, v0⟩ := hd
    by_cases h : k0 = k
    · simp [setKey, h, lookupKey]
    · simpa [setKey, h, lookupKey] using ih

theorem setKey_eq_append_of_not_mem {α : Type} (m : List (String × α))
    (k : String) (v : α) (h : k ∉ m.map Prod.fst) :
    setKey m k v = m ++ [(k, v)] := by
  induction m with
  | nil => rfl
  | cons hd tl ih =>
    obtain ⟨k0, v0⟩ := hd
    simp only [List.map_cons, List.mem_cons, not_or] at h
    have h1 : ¬k0 = k := fun hEq => h.1 hEq.symm
    simp [setKey, h1, ih h.2]

theorem foldl_setKey_append {α β : Type} (keyf : β → String) (valf : β → α) :
    ∀ (l : List β) (acc : List (String × α)),
      (∀ b ∈ l, keyf b ∉ acc.map Prod.fst) →
      (l.map keyf).Nodup →
      l.foldl (fun acc b => setKey acc (keyf b) (valf b)) acc
        = acc ++ l.map (fun b => (keyf b, valf b)) := by
  intro l
  induction l with
  | nil => intro acc _ _; simp
  | cons b l ih =>
    intro acc hdisj hnd
    rw [List.map_cons, List.nodup_cons] at hnd
    rw [List.foldl_cons,
      setKey_eq_append_of_not_mem acc (keyf b) (valf b) (hdisj b (by simp)),
      ih (acc ++ [(keyf b, valf b)]) ?_ hnd.2]
    · simp
    · intro b' hb'
      simp only [List.map_append, List.mem_append, not_or]
      refine ⟨hdisj b' (by simp [hb']), ?_⟩
      have hne : keyf b' ≠ keyf b := by
        intro hEq
        exact hnd.1 (hEq ▸ List.mem_map_of_mem keyf hb')
      simp [hne]

theorem lookupKey_eq_some_iff_mem {α : Type} (l : List (String × α))
    (hnd : (l.map Prod.fst).Nodup) (k : String) (v : α) :
    lookupKey l k = some v ↔ (k, v) ∈ l := by
  induction l with
  | nil => simp [lookupKey]
  | cons hd tl ih =>
    obtain ⟨k0, v0⟩ := hd
    rw [List.map_cons, List.nodup_cons] at hnd
    by_cases h : k0 = k
    · subst h
      rw [show lookupKey ((k0, v0) :: tl) k0 = some v0 from by simp [lookupKey]]
      simp only [Option.some.injEq, List.mem_cons]
      constructor
      · rintro rfl
        exact Or.inl rfl
      · rintro (hEq | hmem)
        · exact ((Prod.mk.injEq _ _ _ _).mp hEq).2.symm
        · exact absurd (List.mem_map_of_mem Prod.fst hmem) hnd.1
    · simp only [lookupKey, if_neg h, List.mem_cons]
      rw [ih hnd.2]
      constructor
      · exact Or.inr
      · rintro (hEq | hmem)
        · exact absurd (congrArg Prod.fst hEq).symm h
        · exact hmem

theorem sortByOrder_eq_self {α : Type} (key : α → Nat) (l : List α)
    (h : l.Pairwise (fun a b => key a ≤ key b)) : sortByOrder key l = l := by
  induction l with
  | nil => rfl
  | cons x xs ih =>
    rw [List.pairwise_cons] at h
    show insertByOrder key x (sortByOrder key xs) = x :: xs
    rw [ih h.2]
    cases xs with
    | nil => rfl
    | cons y ys =>
      have hxy : key x ≤ key y := h.1 y (by simp)
      simp [insertByOrder, hxy]

theorem pairwise_key_of_map_range {α : Type} (key : α → Nat) (l : List α)
    (n : Nat) (h : l.map key = List.range n) :
    l.Pairwise (fun a b => key a ≤ key b) := by
  have hr : (l.map key).Pairwise (· ≤ ·) := by
    rw [h]
    exact List.pairwise_le_range n
  exact List.pairwise_map.mp hr

theorem metadata_updateLastActivity (s : RoomState) (now : Nat) (m : RoomMetadata)
    (h : s.metadata = some m) :
    (updateLastActivity s now).metadata = some { m with last_activity := now } := by
  simp [updateLastActivity, h]

theorem metadata_updateRoomStatus (s : RoomState) (st : RoomStatus) (now : Nat)
    (m : RoomMetadata) (h : s.metadata = some m) :
    (updateRoomStatus s st now).metadata
      = some { m with status := st, last_activity := now } := by
  simp [updateRoomStatus, updateLastActivity, h]

theorem metadata_startRound (s : RoomState) (taskId : String) (now : Nat)
    (m : RoomMetadata) (h : s.metadata = some m) :
    (startRound s taskId now).metadata
      = some { m with status := .active, last_activity := now } := by
  simp [startRound, updateRoomStatus, updateLastActivity, h]

theorem endRound_eq_of_none (s : RoomState) (now : Nat)
    (hr : s.current_round = none) :
    endRound s now = (some "No active round to end", s) := by
  simp [endRound, hr]

theorem endRound_fst_of_some (s : RoomState) (now : Nat) (r : Round)
    (hr : s.current_round = some r) : (endRound s now).1 = none := by
  simp [endRound, hr]

theorem metadata_endRound_of_some (s : RoomState) (now : Nat) (r : Round)
    (m : RoomMetadata) (hr : s.current_round = some r) (hm : s.metadata = some m) :
    (endRound s now).2.metadata
      = some { m with status := .results, last_activity := now } := by
  simp [endRound, hr, updateRoomStatus, updateLastActivity, hm]

theorem advanceToNextTask_eq_of_last (s : RoomState) (now : Nat) (m : RoomMetadata)
    (hm : s.metadata = some m)
    (hc : s.tasks.length ≤ m.current_task_index + 1) :
    advanceToNextTask s now = (false, updateRoomStatus s .ended now) := by
  simp [advanceToNextTask, hm, hc]

theorem advanceToNextTask_eq_of_found (s : RoomState) (now : Nat) (m : RoomMetadata)
    (t : Task) (hm : s.metadata = some m)
    (hc : ¬s.tasks.length ≤ m.current_task_index + 1)
    (hf : (s.tasks.map Prod.snd).find? (fun t => t.order == m.current_task_index + 1)
      = some t) :
    advanceToNextTask s now
      = (true, startRound
          { s with metadata := some { m with current_task_index := m.current_task_index + 1 } }
          t.id now) := by
  simp [advanceToNextTask, hm, hc, hf]

theorem advanceToNextTask_eq_of_notfound (s : RoomState) (now : Nat) (m : RoomMetadata)
    (hm : s.metadata = some m)
    (hc : ¬s.tasks.length ≤ m.current_task_index + 1)
    (hf : (s.tasks.map Prod.snd).find? (fun t => t.order == m.current_task_index + 1)
      = none) :
    advanceToNextTask s now
      = (false,
         { s with metadata := some { m with current_task_index := m.current_task_index + 1 } }) := by
  simp [advanceToNextTask, hm, hc, hf]

theorem chainOK_refl (a : RoomStatus) : chainOK a a = true := by
  cases a <;> rfl

theorem metadata_joinRoom (s : RoomState) (peerId name : String)
    (isOrganizer : Bool) (now : Nat) (m : RoomMetadata) (hm : s.metadata = some m)
    (hst : m.status ≠ .ended) :
    (joinRoom s peerId name isOrganizer now).2.metadata
      = some { m with last_activity := now } := by
  simp [joinRoom, hm, hst, updateLastActivity]

/-! ### Claim C1: status chain -/

/-- Counterexample to claim C1 as stated: `updateRoomStatus` is one of
the quantified operations and enforces no transition table, so from a
freshly created room (status `lobby`) it can jump straight to `results`,
a move that is not along the chain lobby→active→results→(active|ended). -/
theorem status_chain_counterexample :
    statusOf (createRoom "p1" [] [{ id := "t1", title := "A", link := none }] 0)
      = some .lobby ∧
    statusOf (updateRoomStatus
      (createRoom "p1" [] [{ id := "t1", title := "A", link := none }] 0) .results 1)
      = some .results ∧
    chainOK .lobby .results = false :=
  ⟨rfl, rfl, rfl⟩

/-- Claim C1 (amended): when each operation is invoked from the statuses
in which the application invokes it (`AppStep`), the room status moves
only along the chain lobby→active→results→(active|ended); the raw
`updateRoomStatus` itself enforces no transition table and can move the
status against that chain. -/
theorem status_transitions_along_chain (s s' : RoomState) (m : RoomMetadata)
    (hm : s.metadata = some m) (hstep : AppStep s s') :
    ∃ m', s'.metadata = some m' ∧ chainOK m.status m'.status = true := by
  have hst : statusOf s = some m.status := by simp [statusOf, hm]
  cases hstep with
  | start_round taskId now h =>
    refine ⟨_, metadata_startRound s taskId now m hm, ?_⟩
    rcases h with h | h <;>
      (rw [hst] at h; rw [Option.some.inj h]; rfl)
  | end_round now h =>
    rw [hst] at h
    have hms : m.status = .active := Option.some.inj h
    cases hr : s.current_round with
    | none =>
      rw [endRound_eq_of_none s now hr]
      exact ⟨m, hm, chainOK_refl m.status⟩
    | some r =>
      refine ⟨_, metadata_endRound_of_some s now r m hr hm, ?_⟩
      rw [hms]; rfl
  | advance_task now h =>
    rw [hst] at h
    have hms : m.status = .results := Option.some.inj h
    by_cases hc : s.tasks.length ≤ m.current_task_index + 1
    · rw [advanceToNextTask_eq_of_last s now m hm hc]
      refine ⟨_, metadata_updateRoomStatus s .ended now m hm, ?_⟩
      rw [hms]; rfl
    · cases hf : (s.tasks.map Prod.snd).find?
          (fun t => t.order == m.current_task_index + 1) with
      | some t =>
        rw [advanceToNextTask_eq_of_found s now m t hm hc hf]
        refine ⟨_, metadata_startRound _ t.id now
          { m with current_task_index := m.current_task_index + 1 } (by simp), ?_⟩
        rw [hms]; rfl
      | none =>
        rw [advanceToNextTask_eq_of_notfound s now m hm hc hf]
        refine ⟨{ m with current_task_index := m.current_task_index + 1 }, by simp, ?_⟩
        rw [hms]; rfl
  | end_session now h =>
    refine ⟨_, metadata_updateRoomStatus s .ended now m hm, ?_⟩
    rcases h with h | h <;>
      (rw [hst] at h; rw [Option.some.inj h]; rfl)
  | join peerId name isOrganizer now =>
    by_cases hend : m.status = .ended
    · refine ⟨m, ?_, chainOK_refl m.status⟩
      simp [joinRoom, hm, hend]
    · exact ⟨_, metadata_joinRoom s peerId name isOrganizer now m hm hend,
        chainOK_refl m.status⟩
  | leave peerId =>
    exact ⟨m, hm, chainOK_refl m.status⟩
  | submit pid wsid v now =>
    refine ⟨{ m with last_activity := now }, ?_, chainOK_refl m.status⟩
    simp [submitEstimate, updateLastActivity, hm]
  | mark_done pid d now =>
    refine ⟨{ m with last_activity := now }, ?_, chainOK_refl m.status⟩
    simp [markParticipantDone, updateLastActivity, hm]
  | set_organizer newId storePrevious now =>
    cases storePrevious with
    | true =>
      refine ⟨{ m with organizer_id := newId, previous_organizer_id := some m.organizer_id, last_activity := now }, ?_, chainOK_refl m.status⟩
      simp [setOrganizer, updateLastActivity, hm]
    | false =>
      refine ⟨{ m with organizer_id := newId, last_activity := now }, ?_,
        chainOK_refl m.status⟩
      simp [setOrganizer, updateLastActivity, hm]

/-- Witness for C1 (amended): starting a round from a freshly created
lobby room moves the status along the chain. -/
theorem status_transitions_along_chain_witness :
    ∃ m', (startRound (createRoom "p1" [] [{ id := "t1", title := "A", link := none }] 0) "t1" 1).metadata = some m' ∧
      chainOK .lobby m'.status = true :=
  status_transitions_along_chain
    (createRoom "p1" [] [{ id := "t1", title := "A", link := none }] 0) _ _ rfl
    (AppStep.start_round _ "t1" 1 (Or.inl rfl))

/-! ### Claim C2: current_task_index invariant -/

theorem createRoom_tasks (peerId : String) (ws : List WorkstreamInput)
    (ts : List TaskInput) (now : Nat) (hids : (ts.map TaskInput.id).Nodup) :
    (createRoom peerId ws ts now).tasks
      = ts.enum.map (fun it => (it.2.id, taskWithOrder it)) := by
  have hnd : (ts.enum.map (fun it => it.2.id)).Nodup := by
    have hEq : ts.enum.map (fun it => it.2.id) = ts.map TaskInput.id := by
      rw [show (fun (it : Nat × TaskInput) => it.2.id) = (TaskInput.id ∘ Prod.snd)
        from rfl, ← List.map_map, List.enum_map_snd]
    rw [hEq]
    exact hids
  have h := foldl_setKey_append (fun (it : Nat × TaskInput) => it.2.id)
    taskWithOrder ts.enum [] (by simp) hnd
  simpa using h

theorem createRoom_workstreams (peerId : String) (ws : List WorkstreamInput)
    (ts : List TaskInput) (now : Nat) (hids : (ws.map WorkstreamInput.id).Nodup) :
    (createRoom peerId ws ts now).workstreams
      = ws.enum.map (fun iw => (iw.2.id, workstreamWithOrder iw)) := by
  have hnd : (ws.enum.map (fun iw => iw.2.id)).Nodup := by
    have hEq : ws.enum.map (fun iw => iw.2.id) = ws.map WorkstreamInput.id := by
      rw [show (fun (iw : Nat × WorkstreamInput) => iw.2.id)
        = (WorkstreamInput.id ∘ Prod.snd) from rfl, ← List.map_map, List.enum_map_snd]
    rw [hEq]
    exact hids
  have h := foldl_setKey_append (fun (iw : Nat × WorkstreamInput) => iw.2.id)
    workstreamWithOrder ws.enum [] (by simp) hnd
  simpa using h

theorem controllerStep_metadata (s s' : RoomState) (m : RoomMetadata)
    (hstep : ControllerStep s s') (hm : s.metadata = some m) :
    ∃ m', s'.metadata = some m' ∧ s'.tasks = s.tasks ∧
      (m'.current_task_index = m.current_task_index ∨
        (m'.current_task_index = m.current_task_index + 1 ∧
         m.current_task_index + 1 < s.tasks.length)) := by
  cases hstep with
  | create_room peerId ws ts now h =>
    rw [hm] at h
    exact absurd h (by simp)
  | join peerId name isOrganizer now =>
    by_cases hend : m.status = .ended
    · refine ⟨m, ?_, ?_, Or.inl rfl⟩ <;> simp [joinRoom, hm, hend]
    · refine ⟨{ m with last_activity := now },
        metadata_joinRoom s peerId name isOrganizer now m hm hend, ?_, Or.inl rfl⟩
      simp [joinRoom, hm, hend, updateLastActivity]
  | leave peerId =>
    exact ⟨m, hm, rfl, Or.inl rfl⟩
  | update_status st now =>
    refine ⟨_, metadata_updateRoomStatus s st now m hm, ?_, Or.inl rfl⟩
    simp [updateRoomStatus, updateLastActivity]
  | set_organizer newId storePrevious now =>
    cases storePrevious with
    | true =>
      refine ⟨{ m with organizer_id := newId, previous_organizer_id := some m.organizer_id, last_activity := now }, ?_, ?_, Or.inl rfl⟩ <;>
        simp [setOrganizer, updateLastActivity, hm]
    | false =>
      refine ⟨{ m with organizer_id := newId, last_activity := now }, ?_, ?_, Or.inl rfl⟩ <;>
        simp [setOrganizer, updateLastActivity, hm]
  | clear_previous_organizer =>
    refine ⟨{ m with previous_organizer_id := none }, ?_, ?_, Or.inl rfl⟩ <;>
      simp [clearPreviousOrganizer, hm]
  | start_round taskId now =>
    refine ⟨_, metadata_startRound s taskId now m hm, ?_, Or.inl rfl⟩
    simp [startRound, updateRoomStatus, updateLastActivity]
  | submit pid wsid v now =>
    refine ⟨{ m with last_activity := now }, ?_, ?_, Or.inl rfl⟩ <;>
      simp [submitEstimate, updateLastActivity, hm]
  | mark_done pid d now =>
    refine ⟨{ m with last_activity := now }, ?_, ?_, Or.inl rfl⟩ <;>
      simp [markParticipantDone, updateLastActivity, hm]
  | end_round now =>
    cases hr : s.current_round with
    | none =>
      rw [endRound_eq_of_none s now hr]
      exact ⟨m, hm, rfl, Or.inl rfl⟩
    | some r =>
      refine ⟨_, metadata_endRound_of_some s now r m hr hm, ?_, Or.inl rfl⟩
      simp [endRound, hr, updateRoomStatus, updateLastActivity]
  | advance_task now =>
    by_cases hc : s.tasks.length ≤ m.current_task_index + 1
    · rw [advanceToNextTask_eq_of_last s now m hm hc]
      refine ⟨_, metadata_updateRoomStatus s .ended now m hm, ?_, Or.inl rfl⟩
      simp [updateRoomStatus, updateLastActivity]
    · cases hf : (s.tasks.map Prod.snd).find?
          (fun t => t.order == m.current_task_index + 1) with
      | some t =>
        rw [advanceToNextTask_eq_of_found s now m t hm hc hf]
        refine ⟨_, metadata_startRound _ t.id now
          { m with current_task_index := m.current_task_index + 1 } (by simp), ?_,
          Or.inr ⟨rfl, by omega⟩⟩
        simp [startRound, updateRoomStatus, updateLastActivity]
      | none =>
        rw [advanceToNextTask_eq_of_notfound s now m hm hc hf]
        exact ⟨{ m with current_task_index := m.current_task_index + 1 }, by simp,
          rfl, Or.inr ⟨rfl, by omega⟩⟩
  | update_participant pid u =>
    exact ⟨m, hm, rfl, Or.inl rfl⟩
  | remove_participant pid =>
    exact ⟨m, hm, rfl, Or.inl rfl⟩

/-- Claim C2: in a room created with at least one task (the creation form
rejects an empty task list) whose task ids are distinct,
`current_task_index` starts at 0 and, over every sequence of controller
operations, stays within `[0, taskCount)` and never decreases; in
particular `advanceToNextTask` never writes an index `≥ taskCount`. -/
theorem current_task_index_invariant (peerId : String) (ws : List WorkstreamInput)
    (ts : List TaskInput) (now : Nat) (hcount : 0 < ts.length)
    (hids : (ts.map TaskInput.id).Nodup) :
    (∃ m0, (createRoom peerId ws ts now).metadata = some m0 ∧
      m0.current_task_index = 0) ∧
    ∀ s, ReachableFrom (createRoom peerId ws ts now) s →
      ∃ m, s.metadata = some m ∧ m.current_task_index < ts.length ∧
        ∀ s', ControllerStep s s' →
          ∃ m', s'.metadata = some m' ∧
            m.current_task_index ≤ m'.current_task_index := by
  have hlen : (createRoom peerId ws ts now).tasks.length = ts.length := by
    rw [createRoom_tasks peerId ws ts now hids]
    simp
  constructor
  · exact ⟨_, rfl, rfl⟩
  · intro s hreach
    have hInv : ∃ m, s.metadata = some m ∧ m.current_task_index < ts.length ∧
        s.tasks.length = ts.length := by
      induction hreach with
      | refl => exact ⟨_, rfl, hcount, hlen⟩
      | tail hR hstep ih =>
        obtain ⟨m, hm, hidx, hlenb⟩ := ih
        obtain ⟨m', hm', htasks', hcase⟩ := controllerStep_metadata _ _ m hstep hm
        refine ⟨m', hm', ?_, by rw [htasks', hlenb]⟩
        rcases hcase with hEq | ⟨hEq, hlt⟩ <;> omega
    obtain ⟨m, hm, hidx, hlenS⟩ := hInv
    refine ⟨m, hm, hidx, ?_⟩
    intro s' hstep
    obtain ⟨m', hm', _, hcase⟩ := controllerStep_metadata _ _ m hstep hm
    refine ⟨m', hm', ?_⟩
    rcases hcase with hEq | ⟨hEq, _⟩ <;> omega

/-- Witness for C2: a freshly created one-task room has index 0. -/
theorem current_task_index_invariant_witness :
    ∃ m0, (createRoom "p1" [] [{ id := "t1", title := "A", link := none }] 0).metadata
      = some m0 ∧ m0.current_task_index = 0 :=
  (current_task_index_invariant "p1" []
    [{ id := "t1", title := "A", link := none }] 0 (by decide) (by simp)).1

/-! ### Claim C3: advanceToNextTask on the last task -/

/-- Claim C3: when `current_task_index = taskCount - 1` (the last task),
`advanceToNextTask` returns false (the "no next task" signal), sets
status `ended`, leaves the index unchanged and does not write the current
round. -/
theorem advanceToNextTask_last (s : RoomState) (m : RoomMetadata) (now : Nat)
    (hm : s.metadata = some m) (htasks : 0 < s.tasks.length)
    (hidx : m.current_task_index = s.tasks.length - 1) :
    (advanceToNextTask s now).1 = false ∧
    (∃ m', (advanceToNextTask s now).2.metadata = some m' ∧ m'.status = .ended ∧
      m'.current_task_index = m.current_task_index) ∧
    (advanceToNextTask s now).2.current_round = s.current_round := by
  have hc : s.tasks.length ≤ m.current_task_index + 1 := by omega
  rw [advanceToNextTask_eq_of_last s now m hm hc]
  refine ⟨rfl, ⟨_, metadata_updateRoomStatus s .ended now m hm, rfl, rfl⟩, ?_⟩
  simp [updateRoomStatus, updateLastActivity]

/-- Witness for C3 at a one-task room sitting on its only (last) task. -/
theorem advanceToNextTask_last_witness :
    (advanceToNextTask (createRoom "p1" [] [{ id := "t1", title := "A", link := none }] 0) 7).1 = false ∧
    (advanceToNextTask (createRoom "p1" [] [{ id := "t1", title := "A", link := none }] 0) 7).2.current_round
      = (createRoom "p1" [] [{ id := "t1", title := "A", link := none }] 0).current_round := by
  have h := advanceToNextTask_last
    (createRoom "p1" [] [{ id := "t1", title := "A", link := none }] 0) _ 7 rfl
    (by decide) (by decide)
  exact ⟨h.1, h.2.2⟩

/-! ### Claim C4: endRound throws iff no round, with no partial write -/

/-- Claim C4: `endRound` throws exactly when no current round exists at
its initial read, and on the throwing path no write has been issued: the
room state is returned unchanged. -/
theorem endRound_throws_iff (s : RoomState) (now : Nat) :
    ((endRound s now).1.isSome ↔ s.current_round = none) ∧
    ((endRound s now).1.isSome → (endRound s now).2 = s) := by
  cases hr : s.current_round with
  | none =>
    rw [endRound_eq_of_none s now hr]
    exact ⟨by simp, fun _ => rfl⟩
  | some r =>
    rw [show (endRound s now).1 = none from endRound_fst_of_some s now r hr]
    constructor
    · simp [hr]
    · simp

/-- Witness for C4: ending a round in a round-less fresh room throws and
returns the state unchanged. -/
theorem endRound_throws_iff_witness :
    (endRound (createRoom "p1" [] [{ id := "t1", title := "A", link := none }] 0) 5).1.isSome = true ∧
    (endRound (createRoom "p1" [] [{ id := "t1", title := "A", link := none }] 0) 5).2
      = createRoom "p1" [] [{ id := "t1", title := "A", link := none }] 0 :=
  ⟨rfl, (endRound_throws_iff (createRoom "p1" [] [{ id := "t1", title := "A", link := none }] 0) 5).2 rfl⟩

/-! ### Claim C7: joinRoom -/

theorem joinRoom_eq_of_missing (s : RoomState) (peerId name : String)
    (isOrganizer : Bool) (now : Nat) (hm : s.metadata = none) :
    joinRoom s peerId name isOrganizer now = (false, s) := by
  simp [joinRoom, hm]

theorem joinRoom_eq_of_ended (s : RoomState) (peerId name : String)
    (isOrganizer : Bool) (now : Nat) (m : RoomMetadata)
    (hm : s.metadata = some m) (hend : m.status = .ended) :
    joinRoom s peerId name isOrganizer now = (false, s) := by
  simp [joinRoom, hm, hend]

theorem joinRoom_eq_of_ok (s : RoomState) (peerId name : String)
    (isOrganizer : Bool) (now : Nat) (m : RoomMetadata)
    (hm : s.metadata = some m) (hend : m.status ≠ .ended) :
    joinRoom s peerId name isOrganizer now
      = (true, updateLastActivity
          { s with participants := setKey s.participants peerId (joinParticipant peerId name isOrganizer now) }
          now) := by
  simp [joinRoom, hm, hend]

/-- Claim C7: `joinRoom` returns false exactly when the room is missing
or its status is `ended`; otherwise it writes the participant record
(`connection_status = online`, `joined_at = last_heartbeat = now`) under
the peer id, bumps the room's `last_activity`, and returns true. -/
theorem joinRoom_spec (s : RoomState) (peerId name : String)
    (isOrganizer : Bool) (now : Nat) :
    ((joinRoom s peerId name isOrganizer now).1 = false ↔
      s.metadata = none ∨ ∃ m, s.metadata = some m ∧ m.status = .ended) ∧
    ((joinRoom s peerId name isOrganizer now).1 = true →
      lookupKey (joinRoom s peerId name isOrganizer now).2.participants peerId
        = some (joinParticipant peerId name isOrganizer now) ∧
      (joinParticipant peerId name isOrganizer now).peer_id = peerId ∧
      (joinParticipant peerId name isOrganizer now).name = name ∧
      (joinParticipant peerId name isOrganizer now).connection_status = .online ∧
      (joinParticipant peerId name isOrganizer now).joined_at = now ∧
      (joinParticipant peerId name isOrganizer now).last_heartbeat = now ∧
      ∃ m', (joinRoom s peerId name isOrganizer now).2.metadata = some m' ∧
        m'.last_activity = now) := by
  cases hm : s.metadata with
  | none =>
    rw [joinRoom_eq_of_missing s peerId name isOrganizer now hm]
    exact ⟨⟨fun _ => Or.inl rfl, fun _ => rfl⟩, fun h => absurd h (by simp)⟩
  | some m =>
    by_cases hend : m.status = .ended
    · rw [joinRoom_eq_of_ended s peerId name isOrganizer now m hm hend]
      exact ⟨⟨fun _ => Or.inr ⟨m, rfl, hend⟩, fun _ => rfl⟩, fun h => absurd h (by simp)⟩
    · rw [joinRoom_eq_of_ok s peerId name isOrganizer now m hm hend]
      constructor
      · constructor
        · intro h
          exact absurd h (by simp)
        · rintro (h0 | ⟨m', hm', hst⟩)
          · exact absurd h0 (by simp)
          · exact absurd (by rw [Option.some.inj hm']; exact hst) hend
      · intro _
        refine ⟨?_, rfl, rfl, rfl, rfl, rfl, ⟨{ m with last_activity := now }, ?_, rfl⟩⟩
        · exact lookupKey_setKey_self s.participants peerId
            (joinParticipant peerId name isOrganizer now)
        · exact metadata_updateLastActivity _ now m hm

/-- Witness for C7: joining a fresh lobby room succeeds and writes the
participant record. -/
theorem joinRoom_spec_witness :
    (joinRoom (createRoom "p1" [] [{ id := "t1", title := "A", link := none }] 0) "p2" "Bob" false 3).1 = true ∧
    lookupKey (joinRoom (createRoom "p1" [] [{ id := "t1", title := "A", link := none }] 0) "p2" "Bob" false 3).2.participants "p2"
      = some (joinParticipant "p2" "Bob" false 3) := by
  have h := (joinRoom_spec
    (createRoom "p1" [] [{ id := "t1", title := "A", link := none }] 0)
    "p2" "Bob" false 3).2 rfl
  exact ⟨rfl, h.1⟩

/-! ### Claim C8: detectStaleParticipants -/

/-- Claim C8: `detectStaleParticipants` returns exactly the ids of the
participants whose heartbeat age strictly exceeds the threshold; it only
reads the participants (its result is a list of ids, no state is
written). -/
theorem detectStaleParticipants_spec (s : RoomState) (now timeoutMs : Int)
    (hnd : (s.participants.map Prod.fst).Nodup) (pid : String) :
    pid ∈ detectStaleParticipants s now timeoutMs ↔
      ∃ p, lookupKey s.participants pid = some p ∧
        timeoutMs < now - (p.last_heartbeat : Int) := by
  unfold detectStaleParticipants
  constructor
  · intro h
    rcases List.mem_map.mp h with ⟨⟨k, p⟩, hmem, hk⟩
    rcases List.mem_filter.mp hmem with ⟨hmem2, hcond⟩
    cases hk
    exact ⟨p, (lookupKey_eq_some_iff_mem s.participants hnd _ p).mpr hmem2,
      by simpa using hcond⟩
  · rintro ⟨p, hlk, hgt⟩
    have hmem := (lookupKey_eq_some_iff_mem s.participants hnd pid p).mp hlk
    exact List.mem_map.mpr
      ⟨(pid, p), List.mem_filter.mpr ⟨hmem, by simpa using hgt⟩, rfl⟩

/-- Witness for C8 at `thresholdMs = 6000`: the participant whose
heartbeat is 7000 ms old is returned, the one 3000 ms old is not. -/
theorem detectStaleParticipants_spec_witness :
    detectStaleParticipants staleDemoState 10000 6000 = ["alice"] ∧
    ("alice" ∈ detectStaleParticipants staleDemoState 10000 6000 ↔
      ∃ p, lookupKey staleDemoState.participants "alice" = some p ∧
        (6000 : Int) < 10000 - (p.last_heartbeat : Int)) :=
  ⟨by decide, detectStaleParticipants_spec staleDemoState 10000 6000 (by decide) "alice"⟩

/-! ### Claim C9: createRoom / snapshot round-trip -/

/-- Claim C9: workstreams and tasks written by `createRoom` are read back
through the snapshot and listener paths sorted by ascending `order`; the
sequence read back is the input sequence, with `order` assigned densely
from 0 by array position. -/
theorem createRoom_readback_roundtrip (peerId : String)
    (ws : List WorkstreamInput) (ts : List TaskInput) (now : Nat)
    (hwids : (ws.map WorkstreamInput.id).Nodup)
    (htids : (ts.map TaskInput.id).Nodup) :
    getWorkstreamsSnapshot (createRoom peerId ws ts now)
      = ws.enum.map workstreamWithOrder ∧
    onWorkstreams (createRoom peerId ws ts now)
      = ws.enum.map workstreamWithOrder ∧
    (ws.enum.map workstreamWithOrder).map (fun w => (w.id, w.name))
      = ws.map (fun w => (w.id, w.name)) ∧
    (ws.enum.map workstreamWithOrder).map Workstream.order
      = List.range ws.length ∧
    (ws.enum.map workstreamWithOrder).Pairwise (fun a b => a.order ≤ b.order) ∧
    getTasksSnapshot (createRoom peerId ws ts now) = ts.enum.map taskWithOrder ∧
    onTasks (createRoom peerId ws ts now) = ts.enum.map taskWithOrder ∧
    (ts.enum.map taskWithOrder).map (fun t => (t.id, t.title))
      = ts.map (fun t => (t.id, t.title)) ∧
    (ts.enum.map taskWithOrder).map Task.order = List.range ts.length ∧
    (ts.enum.map taskWithOrder).Pairwise (fun a b => a.order ≤ b.order) := by
  have hordw : (ws.enum.map workstreamWithOrder).map Workstream.order
      = List.range ws.length := by
    rw [List.map_map]
    exact List.enum_map_fst ws
  have hordt : (ts.enum.map taskWithOrder).map Task.order
      = List.range ts.length := by
    rw [List.map_map]
    exact List.enum_map_fst ts
  have hpw := pairwise_key_of_map_range Workstream.order
    (ws.enum.map workstreamWithOrder) ws.length hordw
  have hpt := pairwise_key_of_map_range Task.order
    (ts.enum.map taskWithOrder) ts.length hordt
  have hvw : (createRoom peerId ws ts now).workstreams.map Prod.snd
      = ws.enum.map workstreamWithOrder := by
    rw [createRoom_workstreams peerId ws ts now hwids, List.map_map]
    rfl
  have hvt : (createRoom peerId ws ts now).tasks.map Prod.snd
      = ts.enum.map taskWithOrder := by
    rw [createRoom_tasks peerId ws ts now htids, List.map_map]
    rfl
  have hsw : getWorkstreamsSnapshot (createRoom peerId ws ts now)
      = ws.enum.map workstreamWithOrder := by
    unfold getWorkstreamsSnapshot
    rw [hvw]
    exact sortByOrder_eq_self Workstream.order _ hpw
  have hst : getTasksSnapshot (createRoom peerId ws ts now)
      = ts.enum.map taskWithOrder := by
    unfold getTasksSnapshot
    rw [hvt]
    exact sortByOrder_eq_self Task.order _ hpt
  have hprojw : (ws.enum.map workstreamWithOrder).map (fun w => (w.id, w.name))
      = ws.map (fun w => (w.id, w.name)) := by
    rw [List.map_map,
      show ((fun (w : Workstream) => (w.id, w.name)) ∘ workstreamWithOrder)
        = ((fun (w : WorkstreamInput) => (w.id, w.name)) ∘ Prod.snd) from rfl,
      ← List.map_map, List.enum_map_snd]
  have hprojt : (ts.enum.map taskWithOrder).map (fun t => (t.id, t.title))
      = ts.map (fun t => (t.id, t.title)) := by
    rw [List.map_map,
      show ((fun (t : Task) => (t.id, t.title)) ∘ taskWithOrder)
        = ((fun (t : TaskInput) => (t.id, t.title)) ∘ Prod.snd) from rfl,
      ← List.map_map, List.enum_map_snd]
  exact ⟨hsw, hsw, hprojw, hordw, hpw, hst, hst, hprojt, hordt, hpt⟩

/-- Witness for C9 on a two-workstream, two-task room. -/
theorem createRoom_readback_roundtrip_witness :
    getWorkstreamsSnapshot (createRoom "p1" [{ id := "w1", name := "Backend" }, { id := "w2", name := "Frontend" }] [{ id := "t1", title := "A", link := none }, { id := "t2", title := "B", link := none }] 0)
      = [{ id := "w1", name := "Backend", order := 0 }, { id := "w2", name := "Frontend", order := 1 }] := by
  have h := (createRoom_readback_roundtrip "p1"
    [{ id := "w1", name := "Backend" }, { id := "w2", name := "Frontend" }]
    [{ id := "t1", title := "A", link := none }, { id := "t2", title := "B", link := none }]
    0 (by decide) (by decide)).1
  rw [h]
  decide

/-! ### Claim C10: endRound denormalization -/

theorem endRound_eq_of_some (s : RoomState) (now : Nat) (r : Round)
    (hr : s.current_round = some r) :
    endRound s now
      = (none, updateRoomStatus
          { s with completed_rounds := s.completed_rounds ++ [completedRoundOf s r now], current_round := none }
          .results now) := by
  simp [endRound, hr]

/-- Claim C10: every Completed Round appended by `endRound` carries a
`participant_name` on each estimate entry and a `workstream_name` on each
per-workstream estimate; when the corresponding Participant or Workstream
record is absent, the literal `"Unknown"` is substituted and the entry is
still included — `endRound` neither fails nor drops an estimate because a
name is missing. -/
theorem endRound_denormalization (s : RoomState) (r : Round) (now : Nat)
    (h : s.current_round = some r) :
    (endRound s now).1 = none ∧
    ∃ cr, (endRound s now).2.completed_rounds = s.completed_rounds ++ [cr] ∧
      cr.task_id = r.task_id ∧
      cr.estimates.map Prod.fst = r.estimates.map Prod.fst ∧
      ∀ pid e, (pid, e) ∈ r.estimates →
        ∃ ce, (pid, ce) ∈ cr.estimates ∧
          ce.participant_name
            = nameOrUnknown ((lookupKey s.participants pid).map (·.name)) ∧
          (lookupKey s.participants pid = none → ce.participant_name = "Unknown") ∧
          ce.workstreams.map Prod.fst = e.workstreams.map Prod.fst ∧
          ∀ wsid we, (wsid, we) ∈ e.workstreams →
            ∃ cwe, (wsid, cwe) ∈ ce.workstreams ∧ cwe.value = we.value ∧
              cwe.submitted_at = we.submitted_at ∧
              cwe.workstream_name
                = nameOrUnknown ((lookupKey s.workstreams wsid).map (·.name)) ∧
              (lookupKey s.workstreams wsid = none →
                cwe.workstream_name = "Unknown") := by
  rw [endRound_eq_of_some s now r h]
  refine ⟨rfl, completedRoundOf s r now, rfl, rfl, ?_, ?_⟩
  · show List.map Prod.fst (r.estimates.map (completedEstimateOf s))
      = List.map Prod.fst r.estimates
    rw [List.map_map]
    rfl
  · intro pid e hmem
    refine ⟨(completedEstimateOf s (pid, e)).2, ?_, rfl, ?_, ?_, ?_⟩
    · exact List.mem_map_of_mem (completedEstimateOf s) hmem
    · intro hn
      simp [completedEstimateOf, hn, nameOrUnknown]
    · show (e.workstreams.map (completedWorkstreamEstimateOf s)).map Prod.fst
        = e.workstreams.map Prod.fst
      rw [List.map_map]
      rfl
    · intro wsid we hwmem
      refine ⟨(completedWorkstreamEstimateOf s (wsid, we)).2, ?_, rfl, rfl, rfl, ?_⟩
      · exact List.mem_map_of_mem (completedWorkstreamEstimateOf s) hwmem
      · intro hn
        simp [completedWorkstreamEstimateOf, hn, nameOrUnknown]

/-- Witness for C10: ending the demo round (whose estimate belongs to a
departed participant) succeeds and appends exactly one completed round. -/
theorem endRound_denormalization_witness :
    (endRound endRoundDemoState 9).1 = none ∧
    (endRound endRoundDemoState 9).2.completed_rounds.length = 1 := by
  obtain ⟨h1, cr, hcr, -⟩ := endRound_denormalization endRoundDemoState _ 9 rfl
  refine ⟨h1, ?_⟩
  rw [hcr]
  rfl

end Estimator
